import Mathlib

/-!
Verification development for the psw-plugin-serve-range-requests service-worker
plugin. The definitions below are a shallow embedding of the plugin source:
byte streams are lists of chunks (lists of bytes), JS numbers are Int (Nat
where only non-negative values occur), JS Map objects are insertion-ordered
association lists, and the asynchronous fetch handler is modelled as a pure
step function processing one request at a time (each request releases its
admission slot before the next starts, so slot acquisition succeeds whenever
the per-key capacity is at least one).
-/

namespace ServeRange

/-- Inclusive byte range parsed from a Range header (rangeUtils.ts, interface
Range). Offsets are JS numbers, modelled as Int: the suffix parse path can
produce fullSize - 1 = -1 for an empty object. -/
structure Range where
  start : Int
  end_ : Int
deriving DecidableEq, Repr

/-- Numeric value of a digit string, as parseInt computes it on an
all-digits input. -/
def digitsVal (cs : List Char) : Nat :=
  cs.foldl (fun a c => a * 10 + (c.toNat - 48)) 0

/-- True when every character is an ASCII digit (the regex digit class). -/
def allDigits (cs : List Char) : Bool :=
  cs.all Char.isDigit

/-- String.prototype.trim: strip leading and trailing whitespace. -/
def jsTrim (s : String) : String :=
  String.mk (((s.data.dropWhile Char.isWhitespace).reverse.dropWhile Char.isWhitespace).reverse)

/-- Error cases of parseRangeHeader, one per thrown message. -/
inductive RangeError where
  | invalidSuffixValue
  | invalidFormat
  | startOutOfBounds
  | endOutOfBounds
deriving DecidableEq, Repr

/-- Suffix branch of parseRangeHeader: digits is the capture of the suffix
regex. A zero suffix length is rejected; the range is returned with no
bounds validation, exactly as in the source. -/
def parseRangeSuffix (digits : List Char) (fullSize : Int) : Except RangeError Range :=
  let suffixLength : Int := (digitsVal digits : Int)
  if suffixLength ≤ 0 then .error .invalidSuffixValue
  else .ok ⟨max 0 (fullSize - suffixLength), fullSize - 1⟩

/-- Bounds validation of the normal branch of parseRangeHeader. -/
def parseRangeStartEnd (start end_ fullSize : Int) : Except RangeError Range :=
  if start < 0 ∨ start ≥ fullSize then .error .startOutOfBounds
  else if end_ < start ∨ end_ ≥ fullSize then .error .endOutOfBounds
  else .ok ⟨start, end_⟩

/-- Normal branch of parseRangeHeader on the text after the bytes= prefix:
the regex digits-(digits or empty), an empty second capture meaning the end
of the object. -/
def parseRangeNormal (rest : List Char) (fullSize : Int) : Except RangeError Range :=
  let ds := rest.takeWhile Char.isDigit
  let after := rest.dropWhile Char.isDigit
  if ds = [] then .error .invalidFormat
  else
    match after with
    | '-' :: es =>
      if allDigits es then
        parseRangeStartEnd (digitsVal ds : Int)
          (if es = [] then fullSize - 1 else (digitsVal es : Int)) fullSize
      else .error .invalidFormat
    | _ => .error .invalidFormat

/-- Embedding of parseRangeHeader (rangeUtils.ts). The suffix regex
bytes=-(digits) is tried first, then the normal regex
bytes=(digits)-(digits or empty); the isNaN checks of the source are
unreachable because both regexes only admit digit strings. -/
def parseRangeHeader (rangeHeader : String) (fullSize : Int) : Except RangeError Range :=
  let trimmed := (jsTrim rangeHeader).data
  if trimmed.take 7 = "bytes=-".data ∧ trimmed.drop 7 ≠ [] ∧ allDigits (trimmed.drop 7) then
    parseRangeSuffix (trimmed.drop 7) fullSize
  else if trimmed.take 6 = "bytes=".data then
    parseRangeNormal (trimmed.drop 6) fullSize
  else .error .invalidFormat

/-- Validator metadata consulted by ifRangeMatches. -/
structure IfRangeMetadata where
  etag : Option String := none
  lastModified : Option String := none
deriving DecidableEq, Repr

/-- JS truthiness of an optional string field: absent and empty are falsy. -/
def truthy : Option String → Bool
  | none => false
  | some s => !(s = "")

/-- Removal of a leading weak-validator marker: the regex anchored at the
start matches optional whitespace followed by W or w and a slash; when it
does not match, the string (including its leading whitespace) is unchanged. -/
def stripWeakMarker (cs : List Char) : List Char :=
  match cs.dropWhile Char.isWhitespace with
  | 'W' :: '/' :: tail => tail
  | 'w' :: '/' :: tail => tail
  | _ => cs

/-- Removal of one leading and one trailing double quote, when present. -/
def stripSurroundingQuotes (cs : List Char) : List Char :=
  let cs1 := match cs with
    | '"' :: tail => tail
    | _ => cs
  if h : cs1 = [] then cs1
  else if cs1.getLast h = '"' then cs1.dropLast else cs1

/-- The normalizeEtag closure of ifRangeMatches: strip weak marker, strip
surrounding quotes, trim. -/
def normalizeEtag (s : String) : String :=
  jsTrim (String.mk (stripSurroundingQuotes (stripWeakMarker s.data)))

/-- ETag arm of ifRangeMatches: compares normalized validators
case-sensitively when an etag is present, otherwise false. -/
def ifRangeEtagCheck (value : String) (metadata : IfRangeMetadata) : Bool :=
  if truthy metadata.etag then
    decide (normalizeEtag value = normalizeEtag (metadata.etag.getD ""))
  else false

/-- Embedding of ifRangeMatches (rangeUtils.ts), parameterized over the
runtime date parser (Date.parse), which returns an instant or fails. -/
def ifRangeMatches (dateParse : String → Option Int) (ifRangeValue : String)
    (metadata : IfRangeMetadata) : Bool :=
  let value := jsTrim ifRangeValue
  if value = "" then false
  else if truthy metadata.lastModified then
    match dateParse value with
    | some ifRangeDate =>
      match dateParse (metadata.lastModified.getD "") with
      | some storedDate => decide (ifRangeDate = storedDate)
      | none => false
    | none => ifRangeEtagCheck value metadata
  else ifRangeEtagCheck value metadata

/-- Embedding of shouldCacheRange (rangeUtils.ts). -/
def shouldCacheRange (range : Range) (maxCacheableRangeSize : Int) : Bool :=
  decide (range.end_ - range.start + 1 ≤ maxCacheableRangeSize)

/-- Chunk loop of createRangeStream (rangeUtils.ts): the bytes the produced
stream yields over all pulls, with the running position carried explicitly.
Chunks fully before the range are skipped, a chunk starting past the range
end closes the stream, and overlapping chunks contribute their slice. -/
def createRangeStreamGo (range : Range) : List (List Nat) → Int → List Nat
  | [], _ => []
  | value :: rest, position =>
    let chunkStart : Int := position
    let chunkEnd : Int := position + value.length
    if chunkEnd < range.start then createRangeStreamGo range rest chunkEnd
    else if chunkStart > range.end_ then []
    else
      let s : Int := max (range.start - chunkStart) 0
      let e : Int := min (range.end_ - chunkStart + 1) (value.length : Int)
      if s ≥ e then createRangeStreamGo range rest chunkEnd
      else ((value.drop s.toNat).take (e - s).toNat) ++ createRangeStreamGo range rest chunkEnd

/-- Total byte output of the range stream created over a chunked source. -/
def createRangeStream (chunks : List (List Nat)) (range : Range) : List Nat :=
  createRangeStreamGo range chunks 0

/-- Uint8Array.set: overwrite positions offset.. of result with piece. -/
def writeAt (result : List Nat) (offset : Nat) (piece : List Nat) : List Nat :=
  result.take offset ++ piece ++ result.drop (offset + piece.length)

/-- Chunk loop of readRangeFromStream (rangeUtils.ts), writing each
overlapping slice into the pre-allocated zero-filled result buffer. -/
def readRangeFromStreamGo (range : Range) :
    List (List Nat) → Int → Nat → List Nat → List Nat
  | [], _, _, result => result
  | value :: rest, position, offset, result =>
    let chunkStart : Int := position
    let chunkEnd : Int := position + value.length
    if chunkEnd < range.start then readRangeFromStreamGo range rest chunkEnd offset result
    else if chunkStart > range.end_ then result
    else
      let s : Int := max (range.start - chunkStart) 0
      let e : Int := min (range.end_ - chunkStart + 1) (value.length : Int)
      if s ≥ e then readRangeFromStreamGo range rest chunkEnd offset result
      else
        let piece := (value.drop s.toNat).take (e - s).toNat
        readRangeFromStreamGo range rest chunkEnd (offset + piece.length)
          (writeAt result offset piece)

/-- Embedding of readRangeFromStream (rangeUtils.ts, signal absent): the
result buffer is allocated zero-filled at the full range size and slices of
overlapping chunks are written into it in order. -/
def readRangeFromStream (chunks : List (List Nat)) (range : Range) : List Nat :=
  readRangeFromStreamGo range chunks 0 0
    (List.replicate (range.end_ - range.start + 1).toNat 0)

/-- Status constant from the http-constants package. -/
def HTTP_STATUS_PARTIAL_CONTENT : Nat := 206

/-- Default content type from the http-constants package. -/
def MIME_APPLICATION_OCTET_STREAM : String := "application/octet-stream"

/-- File metadata record (types.ts, interface FileMetadata). -/
structure FileMetadata where
  size : Int
  type : String
  etag : Option String := none
  lastModified : Option String := none
deriving DecidableEq, Repr

/-- Embedding of buildRangeResponseHeaders (rangeResponse.ts): response
headers for a 206, in insertion order, with the optional Cache-Control set
only when the configured value is truthy. -/
def buildRangeResponseHeaders (range : Range) (metadata : FileMetadata)
    (dataByteLength : Int) (cacheControl : Option String) : List (String × String) :=
  let headers := [("Accept-Ranges", "bytes"),
    ("Content-Range",
      "bytes " ++ toString range.start ++ "-" ++ toString range.end_ ++ "/"
        ++ toString metadata.size),
    ("Content-Length", toString dataByteLength),
    ("Content-Type", metadata.type)]
  match cacheControl with
  | some cc => if cc = "" then headers else headers ++ [("Cache-Control", cc)]
  | none => headers

/-- Headers of a full response held in the SW cache, plus its body stream.
A body of none models a Response whose body property is null. -/
structure StoreEntry where
  contentLength : Option String
  contentType : Option String
  etag : Option String
  lastModified : Option String
  body : Option (List (List Nat))
deriving DecidableEq, Repr

/-- JS parseInt with radix 10: skip leading whitespace, optional sign, then
a non-empty digit prefix; anything else yields NaN (none). -/
def jsParseInt (s : String) : Option Int :=
  let cs := s.data.dropWhile Char.isWhitespace
  let signAndRest : Int × List Char :=
    match cs with
    | '-' :: tail => (-1, tail)
    | '+' :: tail => (1, tail)
    | _ => (1, cs)
  let ds := signAndRest.2.takeWhile Char.isDigit
  if ds = [] then none else some (signAndRest.1 * (digitsVal ds : Int))

/-- A header value used where the source spreads it conditionally: empty
strings are falsy and dropped. -/
def optTruthy : Option String → Option String
  | none => none
  | some s => if s = "" then none else some s

/-- Embedding of extractMetadataFromResponse (rangeResponse.ts): requires a
truthy Content-Length parsing to a positive size; Content-Type defaults via
null coalescing; etag and lastModified are kept only when truthy. -/
def extractMetadataFromResponse (response : StoreEntry) : Option FileMetadata :=
  match response.contentLength with
  | none => none
  | some contentLengthHeader =>
    if contentLengthHeader = "" then none
    else
      match jsParseInt contentLengthHeader with
      | none => none
      | some size =>
        if size ≤ 0 then none
        else some { size := size,
                    type := response.contentType.getD MIME_APPLICATION_OCTET_STREAM,
                    etag := optTruthy response.etag,
                    lastModified := optTruthy response.lastModified }

/-- A materialized 206 kept in the range cache (types.ts, CachedRange). -/
structure CachedRange where
  data : List Nat
  headers : List (String × String)
deriving DecidableEq, Repr

/-- Map.get over an insertion-ordered association list. -/
def lookupA {α : Type} (k : String) : List (String × α) → Option α
  | [] => none
  | (k', v) :: rest => if k' = k then some v else lookupA k rest

/-- Map.delete: remove the entry with the given key. -/
def eraseKey {α : Type} (k : String) : List (String × α) → List (String × α)
  | [] => []
  | (k', v) :: rest => if k' = k then rest else (k', v) :: eraseKey k rest

/-- Map.set: update in place when the key exists (keeping its position),
otherwise append at the most-recent end. -/
def mapSet {α : Type} (k : String) (v : α) (l : List (String × α)) : List (String × α) :=
  match lookupA k l with
  | some _ => l.map (fun e => if e.1 = k then (k, v) else e)
  | none => l ++ [(k, v)]

/-- Embedding of getCachedRange (index.ts): a hit is deleted and re-inserted
at the most-recent end; the entry (if any) and the updated map are returned. -/
def getCachedRange (cacheKey : String) (rangeCache : List (String × CachedRange)) :
    Option CachedRange × List (String × CachedRange) :=
  match lookupA cacheKey rangeCache with
  | none => (none, rangeCache)
  | some cached => (some cached, eraseKey cacheKey rangeCache ++ [(cacheKey, cached)])

/-- Embedding of manageMetadataCacheSize (index.ts): disabled limit (at most
0) does nothing; at or above the limit the first (oldest) entry is deleted,
unless its key is falsy (the empty string). -/
def manageMetadataCacheSize (maxCachedRanges : Int)
    (cache : List (String × FileMetadata)) : List (String × FileMetadata) :=
  if maxCachedRanges ≤ 0 then cache
  else if maxCachedRanges ≤ (cache.length : Int) then
    match cache with
    | [] => cache
    | (firstKey, v) :: rest => if firstKey = "" then (firstKey, v) :: rest else rest
  else cache

/-- Per-URL admission record (rangeSlot.ts, UrlState). The waiter holds the
id of the request whose promise occupies the single pending slot; the
AbortController in force is identified by its generation number, and the
generations that have been aborted are recorded. -/
structure UrlState where
  count : Nat
  nextWaiter : Option Nat
  abortGen : Nat
  abortedGens : List Nat
deriving DecidableEq, Repr

/-- UrlState of a freshly created entry: zero active, no waiter, a fresh
AbortController. -/
def freshUrlState : UrlState :=
  { count := 0, nextWaiter := none, abortGen := 0, abortedGens := [] }

/-- How an acquireRangeSlot call returns: resolved at once with a release
function, or suspended as the pending waiter. -/
inductive AcquireOutcome where
  | acquired
  | waiting
deriving DecidableEq, Repr

/-- Result of one acquireRangeSlot call: its outcome, the previously pending
waiter that was resolved with null (cancelled) if any, and the new state. -/
structure AcquireResult where
  outcome : AcquireOutcome
  cancelledWaiter : Option Nat
  state : UrlState
deriving DecidableEq, Repr

/-- Embedding of acquireRangeSlot (rangeSlot.ts) on one URL state, with
prioritizeLatestRequest true. Below capacity the count is incremented and
the call resolves at once. At capacity the current AbortController is
aborted and rotated, any previous waiter is resolved with null, and the
caller installs itself as the sole waiter. -/
def acquireRangeSlot (maxConcurrentRangesPerUrl : Nat) (reqId : Nat)
    (state : UrlState) : AcquireResult :=
  if state.count < maxConcurrentRangesPerUrl then
    ⟨.acquired, none, { state with count := state.count + 1 }⟩
  else
    ⟨.waiting, state.nextWaiter,
      { count := state.count, nextWaiter := some reqId,
        abortGen := state.abortGen + 1,
        abortedGens := state.abortGen :: state.abortedGens }⟩

/-- Result of one release call: the waiter that was promoted (woken with a
release function), if any, and the new state. -/
structure ReleaseResult where
  promoted : Option Nat
  state : UrlState
deriving DecidableEq, Repr

/-- Embedding of the release closure of acquireRangeSlot: decrement the
count, clear the waiter slot, and wake the waiter (which re-increments the
count and resolves with its own release function). -/
def releaseRangeSlot (state : UrlState) : ReleaseResult :=
  match state.nextWaiter with
  | none => ⟨none, { state with count := state.count - 1 }⟩
  | some w => ⟨some w, { state with count := state.count - 1 + 1, nextWaiter := none }⟩

/-- Loop body of getOrCreateUrlState (rangeSlot.ts): iterate the map in
insertion order and delete the first entry with no active work and no
waiter, then stop; when no such entry exists nothing is deleted. -/
def evictFirstIdle : List (String × UrlState) → List (String × UrlState)
  | [] => []
  | (k, s) :: rest =>
    if s.count = 0 ∧ s.nextWaiter = none then rest
    else (k, s) :: evictFirstIdle rest

/-- Embedding of getOrCreateUrlState (rangeSlot.ts) acting on the
urlSemaphore table: an existing key leaves the table unchanged; a new key
first triggers the idle eviction scan when the limit is positive and the
table is full, then is appended with a fresh state. -/
def getOrCreateUrlState (maxUrlStates : Int) (url : String)
    (table : List (String × UrlState)) : List (String × UrlState) :=
  match lookupA url table with
  | some _ => table
  | none =>
    let t := if 0 < maxUrlStates ∧ maxUrlStates ≤ (table.length : Int)
      then evictFirstIdle table else table
    t ++ [(url, freshUrlState)]

/-- Outcome of the Cache API lookup (matchByUrl): it can throw, find
nothing, or find a full response. -/
inductive StoreResult where
  | errored
  | absent
  | found (entry : StoreEntry)
deriving DecidableEq, Repr

/-- External collaborators of the fetch handler: the SW cache content and
the runtime date parser used by ifRangeMatches. -/
structure Env where
  store : String → StoreResult
  dateParse : String → Option Int

/-- Plugin options after defaulting (index.ts, RangePluginOptions). The
include and exclude glob masks enter only through shouldProcessFile, kept
abstract as a predicate on the request URL. -/
structure Config where
  maxCachedRanges : Int
  maxConcurrentRangesPerUrl : Nat
  prioritizeLatestRequest : Bool
  restoreMissingToCache : Bool
  rangeResponseCacheControl : Option String
  shouldProcess : String → Bool

/-- The observable parts of an incoming fetch event. -/
structure Request where
  url : String
  method : String
  rangeHeader : Option String
  ifRange : Option String
  passthrough : Bool
  aborted : Bool
deriving DecidableEq, Repr

/-- In-memory plugin state shared across requests. -/
structure PluginState where
  rangeCache : List (String × CachedRange)
  fileMetadataCache : List (String × FileMetadata)
  restoreInProgress : List String
deriving DecidableEq, Repr

/-- What the fetch handler produces for one request. The stalled case marks
a slot acquisition that can never resolve (capacity zero under
prioritizeLatestRequest); fallback is the direct network fetch carrying the
original Range header. -/
inductive Outcome where
  | noResponse
  | abortError
  | fromRangeCache (data : List Nat) (headers : List (String × String)) (status : Nat)
  | served (status : Nat) (headers : List (String × String)) (body : List Nat)
  | fallback
  | stalled
deriving DecidableEq, Repr

/-- Result of one sequential pass of the fetch handler: the outcome, the
updated plugin state, and whether a background restore was started. -/
structure StepResult where
  outcome : Outcome
  state : PluginState
  restoreStarted : Bool
deriving DecidableEq, Repr

/-- Metadata resolution of the fetch handler (index.ts lines 517-529): a
cached entry is used only when the stored Content-Length equals the printed
cached size, otherwise metadata is freshly extracted from the response. -/
def resolveMetadata (st : PluginState) (url : String) (entry : StoreEntry) :
    Option FileMetadata :=
  let validated := match lookupA url st.fileMetadataCache with
    | some m => if entry.contentLength = some (toString m.size) then some m else none
    | none => none
  match validated with
  | some m => some m
  | none => extractMetadataFromResponse entry

/-- The workPromise closure of the fetch handler (index.ts): store lookup,
restore trigger on a miss, metadata resolution, If-Range check, range
parsing and stream construction, followed by the post-race metadata cache
write and the fallback of an undefined work result. The fallback fetch is
also issued here for an undefined result because the request signal never
fired in this sequential model. -/
def pluginWork (cfg : Config) (env : Env) (st1 : PluginState) (req : Request)
    (rangeHeader : String) : StepResult :=
  let url := req.url
  match env.store url with
  | .errored => ⟨.fallback, st1, false⟩
  | .absent =>
    ⟨.fallback, st1,
      cfg.restoreMissingToCache && !(st1.restoreInProgress.contains url)⟩
  | .found entry =>
    match resolveMetadata st1 url entry with
    | none => ⟨.fallback, st1, false⟩
    | some metadata =>
      let blocked : Bool := match req.ifRange with
        | some v => (v != "")
            && !(ifRangeMatches env.dateParse v
                  ⟨metadata.etag, metadata.lastModified⟩)
        | none => false
      if blocked then ⟨.fallback, st1, false⟩
      else
        match parseRangeHeader rangeHeader metadata.size with
        | .error _ => ⟨.fallback, st1, false⟩
        | .ok range =>
          match entry.body with
          | none => ⟨.fallback, st1, false⟩
          | some chunks =>
            let rangeSize := range.end_ - range.start + 1
            let body := createRangeStream chunks range
            let headers := buildRangeResponseHeaders range metadata
              rangeSize cfg.rangeResponseCacheControl
            let mdCache := mapSet url metadata
              (manageMetadataCacheSize cfg.maxCachedRanges st1.fileMetadataCache)
            ⟨.served HTTP_STATUS_PARTIAL_CONTENT headers body,
              { st1 with fileMetadataCache := mdCache }, false⟩

/-- Embedding of the fetch handler of serveRangeRequests (index.ts),
sequentialized: requests are processed one at a time, so slot acquisition
resolves at once whenever the per-URL capacity is at least one (every
earlier request has already run its release), no abort signal fires during
the work, and a started restore runs to completion before the next request
(its add and finally-delete on restoreInProgress cancel out, and its writes
touch only the external SW cache). The restoreStarted flag records that the
fire-and-forget restore was launched; the outcome is computed without it. -/
def pluginFetch (cfg : Config) (env : Env) (st : PluginState) (req : Request) :
    StepResult :=
  if req.passthrough then ⟨.noResponse, st, false⟩
  else
    match req.rangeHeader with
    | none => ⟨.noResponse, st, false⟩
    | some rangeHeader =>
      if rangeHeader = "" then ⟨.noResponse, st, false⟩
      else if req.method ≠ "GET" then ⟨.noResponse, st, false⟩
      else if req.aborted then ⟨.abortError, st, false⟩
      else if ¬ cfg.shouldProcess req.url then ⟨.noResponse, st, false⟩
      else
        let cacheKey := req.url ++ "|" ++ rangeHeader
        let looked := if 0 < cfg.maxCachedRanges
          then getCachedRange cacheKey st.rangeCache
          else (none, st.rangeCache)
        let st1 : PluginState := { st with rangeCache := looked.2 }
        match looked.1 with
        | some cached =>
          ⟨.fromRangeCache cached.data cached.headers HTTP_STATUS_PARTIAL_CONTENT,
            st1, false⟩
        | none =>
          if cfg.prioritizeLatestRequest ∧ cfg.maxConcurrentRangesPerUrl = 0 then
            ⟨.stalled, st1, false⟩
          else pluginWork cfg env st1 req rangeHeader

/-- Sequential processing of a list of requests, threading the state. -/
def runRequests (cfg : Config) (env : Env) : PluginState → List Request → PluginState
  | st, [] => st
  | st, r :: rest => runRequests cfg env (pluginFetch cfg env st r).state rest

/-- Concrete store content: one object at url u, Content-Length 1, one
single-byte chunk. -/
def envByte : Env :=
  ⟨fun u => if u = "u"
      then .found ⟨some "1", some "video/mp4", none, none, some [[42]]⟩
      else .absent,
    fun _ => none⟩

/-- Configuration with the range cache capacity set to zero and the other
options at their defaults. -/
def cfgZero : Config := ⟨0, 4, true, true, none, fun _ => true⟩

/-- Configuration with the default capacity of 100. -/
def cfgHundred : Config := ⟨100, 4, true, true, none, fun _ => true⟩

/-- Empty initial plugin state. -/
def st0 : PluginState := ⟨[], [], []⟩

/-- A GET request for the single stored byte. -/
def reqByte : Request := ⟨"u", "GET", some "bytes=0-0", none, false, false⟩

theorem getCachedRange_none {cacheKey : String} {rangeCache : List (String × CachedRange)}
    (h : lookupA cacheKey rangeCache = none) :
    getCachedRange cacheKey rangeCache = (none, rangeCache) := by
  simp [getCachedRange, h]

theorem pluginFetch_eq_work (cfg : Config) (env : Env) (st : PluginState)
    (req : Request) (h : String)
    (hp : req.passthrough = false) (hr : req.rangeHeader = some h)
    (hne : ¬ h = "") (hm : req.method = "GET") (ha : req.aborted = false)
    (hsp : cfg.shouldProcess req.url = true)
    (hlk : lookupA (req.url ++ "|" ++ h) st.rangeCache = none)
    (hcap : ¬ (cfg.prioritizeLatestRequest = true ∧ cfg.maxConcurrentRangesPerUrl = 0)) :
    pluginFetch cfg env st req = pluginWork cfg env st req h := by
  have hg : (if 0 < cfg.maxCachedRanges
      then getCachedRange (req.url ++ "|" ++ h) st.rangeCache
      else (none, st.rangeCache)) = (none, st.rangeCache) := by
    split_ifs with _
    · exact getCachedRange_none hlk
    · rfl
  simp only [pluginFetch, hp, hr, hg]
  simp [hne, hm, ha, hsp, hcap]

theorem createRangeStreamGo_spec (S E : Nat) (hSE : S ≤ E) :
    ∀ (chunks : List (List Nat)) (pos : Nat),
      createRangeStreamGo ⟨(S : Int), (E : Int)⟩ chunks (pos : Int)
        = (chunks.flatten.drop (S - pos)).take (E + 1 - max pos S) := by
  intro chunks
  induction chunks with
  | nil => intro pos; simp [createRangeStreamGo]
  | cons v rest ih =>
    intro pos
    have hcast : ((pos : Int) + ((v.length : Nat) : Int)) = ((pos + v.length : Nat) : Int) := by
      push_cast
      ring
    simp only [createRangeStreamGo, List.flatten_cons]
    split_ifs with h1 h2 h3
    · rw [List.drop_append_eq_append_drop,
        @List.drop_eq_nil_of_le _ v (S - pos) (by omega), List.nil_append,
        hcast, ih (pos + v.length)]
      congr 1
      · omega
      · congr 1
        omega
    · have hk : E + 1 - max pos S = 0 := by omega
      rw [hk, List.take_zero]
    · rcases Nat.lt_or_ge pos S with hps | hps
      · have hpl : pos + v.length = S := by omega
        rw [List.drop_append_eq_append_drop,
          @List.drop_eq_nil_of_le _ v (S - pos) (by omega), List.nil_append,
          hcast, ih (pos + v.length)]
        congr 1
        · omega
        · congr 1
          omega
      · have hl0 : v.length = 0 := by omega
        have hv : v = [] := List.length_eq_zero.mp hl0
        subst hv
        simp only [List.length_nil, Nat.cast_zero, add_zero, List.nil_append]
        exact ih pos
    · have hJ2 : S - pos - v.length = 0 := by omega
      rw [List.drop_append_eq_append_drop, List.take_append_eq_append_take,
        hJ2, List.drop_zero, hcast, ih (pos + v.length)]
      have hJ : S - (pos + v.length) = 0 := by omega
      rw [hJ, List.drop_zero]
      have hsa : (((S : Int) - (pos : Int)) ⊔ 0).toNat = S - pos := by omega
      rw [hsa]
      congr 1
      · rw [List.take_eq_take]
        simp only [List.length_drop]
        omega
      · congr 1
        simp only [List.length_drop]
        omega

theorem writeAt_nil (result : List Nat) (offset : Nat) :
    writeAt result offset [] = result := by
  simp [writeAt]

theorem length_writeAt (result piece : List Nat) (offset : Nat)
    (h : offset + piece.length ≤ result.length) :
    (writeAt result offset piece).length = result.length := by
  simp only [writeAt, List.length_append, List.length_take, List.length_drop]
  omega

theorem writeAt_writeAt (result p q : List Nat) (offset : Nat)
    (h : offset + p.length + q.length ≤ result.length) :
    writeAt (writeAt result offset p) (offset + p.length) q
      = writeAt result offset (p ++ q) := by
  have hm : offset ⊓ result.length = offset := by omega
  simp only [writeAt, List.take_append_eq_append_take, List.drop_append_eq_append_drop,
    List.length_take, List.length_drop, List.take_take, List.drop_drop, List.length_append, hm]
  rw [show (offset + p.length) ⊓ offset = offset by omega,
    show offset + p.length - offset = p.length by omega,
    List.take_length,
    show offset + p.length - (offset + p.length) = 0 by omega,
    List.take_zero,
    @List.drop_eq_nil_of_le _ (List.take offset result) (offset + p.length + q.length) (by simp; omega),
    show offset + p.length + q.length - offset = p.length + q.length by omega,
    @List.drop_eq_nil_of_le _ p (p.length + q.length) (by omega),
    show offset + p.length + (offset + p.length + q.length - (offset + p.length)) = offset + (p.length + q.length) by omega]
  simp

theorem readRangeFromStreamGo_spec (r : Range) :
    ∀ (chunks : List (List Nat)) (pos offset : Nat) (result : List Nat),
      offset + (createRangeStreamGo r chunks (pos : Int)).length ≤ result.length →
      readRangeFromStreamGo r chunks (pos : Int) offset result
        = writeAt result offset (createRangeStreamGo r chunks (pos : Int)) := by
  intro chunks
  induction chunks with
  | nil =>
    intro pos offset result h
    simp [readRangeFromStreamGo, createRangeStreamGo, writeAt_nil]
  | cons v rest ih =>
    intro pos offset result h
    have hcast : ((pos : Int) + ((v.length : Nat) : Int)) = ((pos + v.length : Nat) : Int) := by
      push_cast
      ring
    simp only [createRangeStreamGo] at h
    simp only [readRangeFromStreamGo, createRangeStreamGo]
    split_ifs at h ⊢ with h1 h2 h3
    · rw [hcast] at h ⊢
      exact ih (pos + v.length) offset result h
    · rw [writeAt_nil]
    · rw [hcast] at h ⊢
      exact ih (pos + v.length) offset result h
    · rw [hcast] at h ⊢
      rw [List.length_append] at h
      refine (ih (pos + v.length) _ _ ?_).trans ?_
      · rw [length_writeAt _ _ _ (by omega)]
        omega
      · exact writeAt_writeAt _ _ _ _ (by omega)

/-- C1: the claim fails on the code. With cache capacity 0 (maxCachedRanges
set to 0), one successfully served range request still inserts the object
metadata into the MetadataCache: the set call after the work result is
unconditional and the eviction helper no-ops at capacity 0, so the entry is
retained and a subsequent lookup returns it. The ResponseCache half of the
claim does hold: it stays empty. -/
theorem c1_zero_capacity_metadata_retained :
    ((pluginFetch cfgZero envByte st0 reqByte).state.fileMetadataCache
        = [("u", ⟨1, "video/mp4", none, none⟩)])
      ∧ lookupA "u" (pluginFetch cfgZero envByte st0 reqByte).state.fileMetadataCache
        = some ⟨1, "video/mp4", none, none⟩
      ∧ (pluginFetch cfgZero envByte st0 reqByte).state.rangeCache = [] :=
  ⟨rfl, rfl, rfl⟩

/-- C2: the claim fails on the code. With caching enabled (capacity 100) and
a one-byte range far below any size ceiling, serving the request from the
store leaves the ResponseCache empty (the fetch path contains no insertion
into it), and repeating the identical request is served by re-extracting
from the store rather than from the ResponseCache. -/
theorem c2_response_cache_never_written :
    ((pluginFetch cfgHundred envByte st0 reqByte).state.rangeCache = [])
      ∧ ((pluginFetch cfgHundred envByte
            (pluginFetch cfgHundred envByte st0 reqByte).state reqByte).outcome
          = .served 206 [("Accept-Ranges", "bytes"), ("Content-Range", "bytes 0-0/1"),
              ("Content-Length", "1"), ("Content-Type", "video/mp4")] [42]) :=
  ⟨rfl, rfl⟩

/-- C4: with capacity 1 and latestWins, three acquires on one key with no
release in between: the first resolves at once with a release function; the
second aborts the current cancel token (generation 0 enters the aborted
set), rotates in the fresh generation 1 and becomes the sole waiter; the
third resolves the second waiter as cancelled and becomes the sole waiter;
releasing the first promotes the third, not the second. -/
theorem c4_lifo_preemption_scenario :
    acquireRangeSlot 1 1 freshUrlState
        = ⟨.acquired, none, ⟨1, none, 0, []⟩⟩
      ∧ acquireRangeSlot 1 2 ⟨1, none, 0, []⟩
        = ⟨.waiting, none, ⟨1, some 2, 1, [0]⟩⟩
      ∧ acquireRangeSlot 1 3 ⟨1, some 2, 1, [0]⟩
        = ⟨.waiting, some 2, ⟨1, some 3, 2, [1, 0]⟩⟩
      ∧ releaseRangeSlot ⟨1, some 3, 2, [1, 0]⟩
        = ⟨some 3, ⟨1, none, 2, [1, 0]⟩⟩ := by
  decide

/-- C5 counterexample: the claim that parseRange fails on every range header
against fullSize 0 (and whenever end is below start) is false: the suffix
path performs no bounds validation and returns start 0, end -1. -/
theorem c5_counterexample_suffix_empty_file :
    parseRangeHeader "bytes=-1" 0 = .ok ⟨0, -1⟩ := rfl

theorem parseRangeStartEnd_ok {a b fs : Int} {r : Range}
    (hok : parseRangeStartEnd a b fs = .ok r) :
    r = ⟨a, b⟩ ∧ 0 ≤ a ∧ a < fs ∧ a ≤ b ∧ b < fs := by
  unfold parseRangeStartEnd at hok
  split_ifs at hok with h1 h2
  all_goals first
    | exact Except.noConfusion hok
    | (injection hok with h'; subst h'; exact ⟨rfl, by omega, by omega, by omega, by omega⟩)

theorem parseRangeNormal_ok {rest : List Char} {fs : Int} {r : Range}
    (hok : parseRangeNormal rest fs = .ok r) :
    ∃ a b : Int, 0 ≤ a ∧ parseRangeStartEnd a b fs = .ok r := by
  unfold parseRangeNormal at hok
  dsimp only at hok
  split at hok
  · exact Except.noConfusion hok
  · split at hok
    · split at hok
      · exact ⟨_, _, by positivity, hok⟩
      · exact Except.noConfusion hok
    · exact Except.noConfusion hok

theorem parseRangeSuffix_ok {digits : List Char} {fs : Int} {r : Range}
    (hok : parseRangeSuffix digits fs = .ok r) :
    1 ≤ (digitsVal digits : Int) ∧ r = ⟨max 0 (fs - (digitsVal digits : Int)), fs - 1⟩ := by
  unfold parseRangeSuffix at hok
  dsimp only at hok
  split_ifs at hok with h1
  all_goals first
    | exact Except.noConfusion hok
    | (injection hok with h'; subst h'; exact ⟨by omega, rfl⟩)

theorem parseRangeHeader_ok_cases {h : String} {fs : Int} {r : Range}
    (hok : parseRangeHeader h fs = .ok r) :
    (∃ digits, parseRangeSuffix digits fs = .ok r)
      ∨ (∃ rest, parseRangeNormal rest fs = .ok r) := by
  unfold parseRangeHeader at hok
  dsimp only at hok
  split_ifs at hok with h1 h2
  all_goals first
    | exact Except.noConfusion hok
    | exact .inl ⟨_, hok⟩
    | exact .inr ⟨_, hok⟩

theorem parseRangeHeader_ok_bounds (h : String) (fs : Int) (r : Range)
    (hfs : 1 ≤ fs) (hok : parseRangeHeader h fs = .ok r) :
    0 ≤ r.start ∧ r.start ≤ r.end_ ∧ r.end_ < fs := by
  rcases parseRangeHeader_ok_cases hok with ⟨d, hs⟩ | ⟨rest, hn⟩
  · obtain ⟨h1, h2⟩ := parseRangeSuffix_ok hs
    subst h2
    refine ⟨?_, ?_, ?_⟩ <;> dsimp <;> omega
  · obtain ⟨a, b, ha, hse⟩ := parseRangeNormal_ok hn
    obtain ⟨h1, h2, h3, h4, h5⟩ := parseRangeStartEnd_ok hse
    subst h1
    refine ⟨?_, ?_, ?_⟩ <;> dsimp <;> omega

theorem parseRangeHeader_zero_ok (h : String) (r : Range)
    (hok : parseRangeHeader h 0 = .ok r) :
    r.start = 0 ∧ r.end_ = -1 := by
  rcases parseRangeHeader_ok_cases hok with ⟨d, hs⟩ | ⟨rest, hn⟩
  · obtain ⟨h1, h2⟩ := parseRangeSuffix_ok hs
    subst h2
    dsimp
    omega
  · obtain ⟨a, b, ha, hse⟩ := parseRangeNormal_ok hn
    obtain ⟨h1, h2, h3, h4, h5⟩ := parseRangeStartEnd_ok hse
    omega

/-- C5 (amended): the four documented successes parse as stated; the format,
suffix and bounds failures all hold, including every non-suffix header
against fullSize 0; but a suffix header bytes=-N (N positive) against
fullSize 0 does not fail: the only possible successful parse at fullSize 0
is the unvalidated suffix result with start 0 and end -1. For every
positive fullSize a successful parse always satisfies the bounds
0 <= start <= end < fullSize, which is the claimed failure condition read
contrapositively. -/
theorem c5_amended_parse_spec :
    (parseRangeHeader "bytes=0-499" 1000 = .ok ⟨0, 499⟩
      ∧ parseRangeHeader "bytes=500-" 1000 = .ok ⟨500, 999⟩
      ∧ parseRangeHeader "bytes=-500" 1000 = .ok ⟨500, 999⟩
      ∧ parseRangeHeader "bytes=-1000" 1000 = .ok ⟨0, 999⟩
      ∧ parseRangeHeader "bytes=0" 1000 = .error .invalidFormat
      ∧ parseRangeHeader "bytes=a-100" 1000 = .error .invalidFormat
      ∧ parseRangeHeader "bytes=-0" 1000 = .error .invalidSuffixValue
      ∧ parseRangeHeader "bytes=0-1000" 1000 = .error .endOutOfBounds
      ∧ parseRangeHeader "bytes=1000-1001" 1000 = .error .startOutOfBounds
      ∧ parseRangeHeader "bytes=500-400" 1000 = .error .endOutOfBounds
      ∧ parseRangeHeader "bytes=0-0" 0 = .error .startOutOfBounds
      ∧ parseRangeHeader "bytes=0-" 0 = .error .startOutOfBounds)
    ∧ (∀ (h : String) (fs : Int) (r : Range), 1 ≤ fs →
        parseRangeHeader h fs = .ok r → 0 ≤ r.start ∧ r.start ≤ r.end_ ∧ r.end_ < fs)
    ∧ (∀ (h : String) (r : Range),
        parseRangeHeader h 0 = .ok r → r.start = 0 ∧ r.end_ = -1) :=
  ⟨⟨rfl, rfl, rfl, rfl, rfl, rfl, rfl, rfl, rfl, rfl, rfl, rfl⟩,
    parseRangeHeader_ok_bounds, parseRangeHeader_zero_ok⟩

/-- Witness for the amended C5: the general bounds statement applied to a
concrete successful parse. -/
theorem c5_amended_parse_spec_witness :
    (1 : Int) ≤ 10 ∧ parseRangeHeader "bytes=2-3" 10 = .ok ⟨2, 3⟩
      ∧ (0 ≤ (⟨2, 3⟩ : Range).start ∧ (⟨2, 3⟩ : Range).start ≤ (⟨2, 3⟩ : Range).end_
          ∧ (⟨2, 3⟩ : Range).end_ < 10) :=
  ⟨by norm_num, rfl,
    c5_amended_parse_spec.2.1 "bytes=2-3" 10 ⟨2, 3⟩ (by norm_num) rfl⟩

/-- Output of the created range stream as the slice of the concatenated
source, for every range with 0 <= start <= end. -/
theorem createRangeStream_eq_slice (S E : Nat) (chunks : List (List Nat)) (hSE : S ≤ E) :
    createRangeStream chunks ⟨(S : Int), (E : Int)⟩
      = (chunks.flatten.drop S).take (E - S + 1) := by
  have h := createRangeStreamGo_spec S E hSE chunks 0
  norm_num at h
  rw [createRangeStream, h]
  congr 1
  omega

/-- Store content for the C3 scenario: a 1000-byte object served in the
given chunks. -/
def envThousand (chunks : List (List Nat)) : Env :=
  ⟨fun u => if u = "u"
      then .found ⟨some "1000", some "video/mp4", none, none, some chunks⟩
      else .absent,
    fun _ => none⟩

/-- Request for bytes 100-199 of the stored object. -/
def reqHundred : Request := ⟨"u", "GET", some "bytes=100-199", none, false, false⟩

/-- C3: a request for bytes=100-199 of a 1000-byte stored object yields a
206 with Content-Range bytes 100-199/1000, Content-Length 100,
Accept-Ranges bytes, and a body equal to bytes 100 to 199 of the
concatenated stored stream, for every chunking of the object; and in
general the extraction output equals the slice from start to end of the
concatenated source stream for every valid range. -/
theorem c3_end_to_end_206_and_slice :
    (∀ chunks : List (List Nat),
      pluginFetch cfgHundred (envThousand chunks) st0 reqHundred
        = ⟨.served 206
            [("Accept-Ranges", "bytes"), ("Content-Range", "bytes 100-199/1000"),
              ("Content-Length", "100"), ("Content-Type", "video/mp4")]
            ((chunks.flatten.drop 100).take 100),
          ⟨[], [("u", ⟨1000, "video/mp4", none, none⟩)], []⟩, false⟩)
    ∧ (∀ (S E : Nat) (chunks : List (List Nat)), S ≤ E →
        createRangeStream chunks ⟨(S : Int), (E : Int)⟩
          = (chunks.flatten.drop S).take (E - S + 1)) := by
  refine ⟨?_, createRangeStream_eq_slice⟩
  intro chunks
  have hb : createRangeStream chunks ⟨(100 : Int), (199 : Int)⟩
      = (chunks.flatten.drop 100).take 100 := by
    have h := createRangeStream_eq_slice 100 199 chunks (by omega)
    norm_num at h
    exact h
  calc pluginFetch cfgHundred (envThousand chunks) st0 reqHundred
      = ⟨.served 206
          [("Accept-Ranges", "bytes"), ("Content-Range", "bytes 100-199/1000"),
            ("Content-Length", "100"), ("Content-Type", "video/mp4")]
          (createRangeStream chunks ⟨(100 : Int), (199 : Int)⟩),
        ⟨[], [("u", ⟨1000, "video/mp4", none, none⟩)], []⟩, false⟩ := rfl
    _ = _ := by rw [hb]

/-- Witness for C3: the general slice statement applied to a concrete range
and chunking. -/
theorem c3_end_to_end_206_and_slice_witness :
    (2 : Nat) ≤ 5
      ∧ createRangeStream [[0, 1, 2, 3], [4, 5, 6]] ⟨((2 : Nat) : Int), ((5 : Nat) : Int)⟩
        = (([[0, 1, 2, 3], [4, 5, 6]] : List (List Nat)).flatten.drop 2).take (5 - 2 + 1) :=
  ⟨by norm_num, c3_end_to_end_206_and_slice.2 2 5 [[0, 1, 2, 3], [4, 5, 6]] (by norm_num)⟩

/-- C10: for every range with 0 <= start <= end the read buffer has exactly
the full range size, equal to the available slice of the concatenated
source padded with zero bytes when the source ends early. -/
theorem c10_readRange_full_length_zero_padded (S E : Nat) (chunks : List (List Nat))
    (hSE : S ≤ E) :
    (readRangeFromStream chunks ⟨(S : Int), (E : Int)⟩).length = E - S + 1
      ∧ readRangeFromStream chunks ⟨(S : Int), (E : Int)⟩
        = (chunks.flatten.drop S).take (E - S + 1)
          ++ List.replicate ((E - S + 1) - ((chunks.flatten.drop S).take (E - S + 1)).length) 0 := by
  have hb : createRangeStreamGo ⟨(S : Int), (E : Int)⟩ chunks (((0 : Nat)) : Int)
      = (chunks.flatten.drop S).take (E - S + 1) := by
    have h := createRangeStreamGo_spec S E hSE chunks 0
    rw [h]
    congr 1
    omega
  have hlen : (createRangeStreamGo ⟨(S : Int), (E : Int)⟩ chunks (((0 : Nat)) : Int)).length
      ≤ E - S + 1 := by
    rw [hb, List.length_take]
    omega
  have hmain : readRangeFromStream chunks ⟨(S : Int), (E : Int)⟩
      = writeAt (List.replicate (E - S + 1) 0) 0
          (createRangeStreamGo ⟨(S : Int), (E : Int)⟩ chunks (((0 : Nat)) : Int)) := by
    rw [readRangeFromStream]
    have hn : (((E : Int)) - (S : Int) + 1).toNat = E - S + 1 := by omega
    rw [show ((⟨(S : Int), (E : Int)⟩ : Range).end_ - (⟨(S : Int), (E : Int)⟩ : Range).start + 1).toNat
      = E - S + 1 from hn]
    rw [show (0 : Int) = (((0 : Nat)) : Int) by norm_num]
    exact readRangeFromStreamGo_spec _ chunks 0 0 _ (by simpa using hlen)
  constructor
  · rw [hmain, writeAt, hb]
    simp only [List.take_zero, List.nil_append, List.length_append, List.length_drop,
      List.length_replicate, List.length_take, Nat.zero_add]
    omega
  · rw [hmain, writeAt, hb]
    simp [List.drop_replicate]

/-- Witness for C10: a short source stream of two bytes read over the range
0 to 3 gives the two bytes followed by two zero bytes. -/
theorem c10_readRange_witness :
    (0 : Nat) ≤ 3
      ∧ ((readRangeFromStream [[1, 2]] ⟨((0 : Nat) : Int), ((3 : Nat) : Int)⟩).length = 3 - 0 + 1
        ∧ readRangeFromStream [[1, 2]] ⟨((0 : Nat) : Int), ((3 : Nat) : Int)⟩
          = (([[1, 2]] : List (List Nat)).flatten.drop 0).take (3 - 0 + 1)
            ++ List.replicate ((3 - 0 + 1)
                - ((([[1, 2]] : List (List Nat)).flatten.drop 0).take (3 - 0 + 1)).length) 0) :=
  ⟨by norm_num, c10_readRange_full_length_zero_padded 0 3 [[1, 2]] (by norm_num)⟩

/-- A date parser recognizing two distinct instants, used to exercise the
Last-Modified arm on concrete inputs. -/
def dpDates : String → Option Int :=
  fun v => if v = "D1" then some 100 else if v = "D2" then some 200 else none

/-- C6: the If-Range check. An empty or whitespace-only value is false for
every metadata and every date parser. When lastModified is set and the
value parses as a date, the result is exactly the equality of the two
parsed instants (an unparsable stored date gives false) and is independent
of the etag field. Otherwise the result is the etag arm: the normalized
case-sensitive comparison when an etag is present, false when neither
validator is present. The concrete conjuncts exercise the weak-validator
and quote stripping, etag mismatch, date match and mismatch, and that a
date mismatch does not fall back to a matching etag. -/
theorem c6_ifRangeMatches_spec :
    (∀ (dp : String → Option Int) (v : String) (md : IfRangeMetadata),
        jsTrim v = "" → ifRangeMatches dp v md = false)
    ∧ (∀ (dp : String → Option Int) (v : String) (md : IfRangeMetadata) (d : Int),
        truthy md.lastModified = true → dp (jsTrim v) = some d → jsTrim v ≠ "" →
        ifRangeMatches dp v md
          = (match dp (md.lastModified.getD "") with
              | some sd => decide (d = sd)
              | none => false))
    ∧ (∀ (dp : String → Option Int) (v : String) (lm : Option String) (d : Int)
        (e1 e2 : Option String),
        truthy lm = true → dp (jsTrim v) = some d →
        ifRangeMatches dp v ⟨e1, lm⟩ = ifRangeMatches dp v ⟨e2, lm⟩)
    ∧ (∀ (dp : String → Option Int) (v : String) (md : IfRangeMetadata),
        (truthy md.lastModified = false ∨ dp (jsTrim v) = none) → jsTrim v ≠ "" →
        ifRangeMatches dp v md = ifRangeEtagCheck (jsTrim v) md)
    ∧ (∀ (dp : String → Option Int) (v : String) (md : IfRangeMetadata),
        truthy md.etag = false → truthy md.lastModified = false →
        ifRangeMatches dp v md = false)
    ∧ (ifRangeMatches (fun _ => none) "W/\"x\"" ⟨some "\"x\"", none⟩ = true
      ∧ ifRangeMatches (fun _ => none) "\"abc\"" ⟨some "\"abc\"", none⟩ = true
      ∧ ifRangeMatches (fun _ => none) "\"other\"" ⟨some "\"abc\"", none⟩ = false
      ∧ ifRangeMatches (fun _ => none) "\"x\"" ⟨none, none⟩ = false
      ∧ ifRangeMatches dpDates "D1" ⟨none, some "D1"⟩ = true
      ∧ ifRangeMatches dpDates "D1" ⟨none, some "D2"⟩ = false
      ∧ ifRangeMatches dpDates "D1" ⟨some "D1", some "D2"⟩ = false
      ∧ ifRangeMatches dpDates "D1" ⟨some "D1", some "unparsable"⟩ = false) := by
  refine ⟨?_, ?_, ?_, ?_, ?_, rfl, rfl, rfl, rfl, rfl, rfl, rfl, rfl⟩
  · intro dp v md hv
    simp [ifRangeMatches, hv]
  · intro dp v md d hlm hdp hne
    simp only [ifRangeMatches, if_neg hne, hlm, if_true, hdp]
  · intro dp v lm d e1 e2 hlm hdp
    by_cases hv : jsTrim v = ""
    · simp [ifRangeMatches, hv]
    · simp only [ifRangeMatches, if_neg hv, hlm, if_true, hdp]
  · intro dp v md hor hne
    rcases hor with hlm | hdp
    · simp only [ifRangeMatches, if_neg hne, hlm, Bool.false_eq_true, if_false]
    · by_cases hlm : truthy md.lastModified
      · simp only [ifRangeMatches, if_neg hne, hlm, if_true, hdp]
      · simp only [ifRangeMatches, if_neg hne, if_neg hlm]
  · intro dp v md he hlm
    by_cases hv : jsTrim v = ""
    · simp [ifRangeMatches, hv]
    · simp only [ifRangeMatches, if_neg hv, hlm, Bool.false_eq_true, if_false,
        ifRangeEtagCheck, he]

/-- Witness for C6: the empty-value statement applied to a whitespace-only
If-Range value. -/
theorem c6_ifRangeMatches_spec_witness :
    jsTrim "  " = ""
      ∧ ifRangeMatches (fun _ => none) "  " ⟨some "\"x\"", none⟩ = false :=
  ⟨rfl, c6_ifRangeMatches_spec.1 (fun _ => none) "  " ⟨some "\"x\"", none⟩ rfl⟩

theorem pluginWork_parse_error (cfg : Config) (env : Env) (st : PluginState)
    (req : Request) (rangeHeader : String) (entry : StoreEntry) (md : FileMetadata)
    (e : RangeError)
    (hst : env.store req.url = .found entry)
    (hmd : resolveMetadata st req.url entry = some md)
    (hif : match req.ifRange with
      | some v => v = "" ∨ ifRangeMatches env.dateParse v ⟨md.etag, md.lastModified⟩ = true
      | none => True)
    (hpr : parseRangeHeader rangeHeader md.size = .error e) :
    pluginWork cfg env st req rangeHeader = ⟨.fallback, st, false⟩ := by
  rcases hifv : req.ifRange with _ | v
  · simp [pluginWork, hst, hmd, hifv, hpr]
  · rw [hifv] at hif
    rcases hif with hv | hmatch
    · simp [pluginWork, hst, hmd, hifv, hpr, hv]
    · simp [pluginWork, hst, hmd, hifv, hpr, hmatch]

theorem pluginWork_store_miss (cfg : Config) (env : Env) (st : PluginState)
    (req : Request) (rangeHeader : String)
    (hst : env.store req.url = .absent) :
    pluginWork cfg env st req rangeHeader
      = ⟨.fallback, st,
          cfg.restoreMissingToCache && !(st.restoreInProgress.contains req.url)⟩ := by
  simp [pluginWork, hst]

/-- A request whose Range header matches no supported pattern. -/
def reqMalformed : Request := ⟨"u", "GET", some "bytes=", none, false, false⟩

/-- C7 counterexample: a request with a malformed Range header against a
stored object is answered with the network-fallback response, not with no
response as the claim states. -/
theorem c7_counterexample_parse_failure_not_silent :
    (pluginFetch cfgHundred (envThousand [[1]]) st0 reqMalformed).outcome = .fallback
      ∧ (pluginFetch cfgHundred (envThousand [[1]]) st0 reqMalformed).outcome
        ≠ .noResponse :=
  ⟨rfl, by decide⟩

/-- C7 (amended): for every request whose Range header fails to parse
against the stored object size, the failure is not retried: the handler
catches it, produces an undefined work result, and answers with the single
network-fallback fetch (carrying the original Range header), leaving the
caches untouched and starting no restore. -/
theorem c7_amended_parse_failure_falls_back (cfg : Config) (env : Env) (st : PluginState)
    (req : Request) (h : String) (entry : StoreEntry) (md : FileMetadata) (e : RangeError)
    (hp : req.passthrough = false) (hr : req.rangeHeader = some h) (hne : ¬ h = "")
    (hm : req.method = "GET") (ha : req.aborted = false)
    (hsp : cfg.shouldProcess req.url = true)
    (hlk : lookupA (req.url ++ "|" ++ h) st.rangeCache = none)
    (hcap : ¬ (cfg.prioritizeLatestRequest = true ∧ cfg.maxConcurrentRangesPerUrl = 0))
    (hst : env.store req.url = .found entry)
    (hmd : resolveMetadata st req.url entry = some md)
    (hif : match req.ifRange with
      | some v => v = "" ∨ ifRangeMatches env.dateParse v ⟨md.etag, md.lastModified⟩ = true
      | none => True)
    (hpr : parseRangeHeader h md.size = .error e) :
    pluginFetch cfg env st req = ⟨.fallback, st, false⟩ := by
  rw [pluginFetch_eq_work cfg env st req h hp hr hne hm ha hsp hlk hcap]
  exact pluginWork_parse_error cfg env st req h entry md e hst hmd hif hpr

/-- Witness for the amended C7 at a concrete malformed request. -/
theorem c7_amended_parse_failure_falls_back_witness :
    pluginFetch cfgHundred (envThousand [[1]]) st0 reqMalformed = ⟨.fallback, st0, false⟩ :=
  c7_amended_parse_failure_falls_back cfgHundred (envThousand [[1]]) st0 reqMalformed
    "bytes=" ⟨some "1000", some "video/mp4", none, none, some [[1]]⟩
    ⟨1000, "video/mp4", none, none⟩ .invalidFormat
    rfl rfl (by decide) rfl rfl rfl rfl (by decide) rfl rfl trivial rfl

/-- A request for a key the store does not hold. -/
def reqMissing : Request := ⟨"missing", "GET", some "bytes=0-0", none, false, false⟩

/-- C8: on a store miss the request is answered immediately with the
network fallback (state unchanged, nothing waits on the restore), and the
background restore is started exactly when restore-on-miss is enabled and
no restore for the key is already in flight; in particular it starts only
when restore-on-miss is enabled. No allowlist exists in the source: the
spec clause (no allowlist is configured or the key is in the allowlist)
holds vacuously, its first disjunct being always true. -/
theorem c8_store_miss_fallback_and_restore_gate (cfg : Config) (env : Env)
    (st : PluginState) (req : Request) (h : String)
    (hp : req.passthrough = false) (hr : req.rangeHeader = some h) (hne : ¬ h = "")
    (hm : req.method = "GET") (ha : req.aborted = false)
    (hsp : cfg.shouldProcess req.url = true)
    (hlk : lookupA (req.url ++ "|" ++ h) st.rangeCache = none)
    (hcap : ¬ (cfg.prioritizeLatestRequest = true ∧ cfg.maxConcurrentRangesPerUrl = 0))
    (hst : env.store req.url = .absent) :
    pluginFetch cfg env st req
      = ⟨.fallback, st,
          cfg.restoreMissingToCache && !(st.restoreInProgress.contains req.url)⟩
    ∧ ((cfg.restoreMissingToCache && !(st.restoreInProgress.contains req.url)) = true
        → cfg.restoreMissingToCache = true) := by
  refine ⟨?_, fun hh => by simpa using (Bool.and_eq_true (cfg.restoreMissingToCache) _ |>.mp hh).1⟩
  rw [pluginFetch_eq_work cfg env st req h hp hr hne hm ha hsp hlk hcap]
  exact pluginWork_store_miss cfg env st req h hst

/-- Witness for C8 at a concrete missing key. -/
theorem c8_store_miss_fallback_and_restore_gate_witness :
    (pluginFetch cfgHundred envByte st0 reqMissing
      = ⟨.fallback, st0,
          cfgHundred.restoreMissingToCache
            && !(st0.restoreInProgress.contains reqMissing.url)⟩)
    ∧ ((cfgHundred.restoreMissingToCache
          && !(st0.restoreInProgress.contains reqMissing.url)) = true
        → cfgHundred.restoreMissingToCache = true) :=
  c8_store_miss_fallback_and_restore_gate cfgHundred envByte st0 reqMissing
    "bytes=0-0" rfl rfl (by decide) rfl rfl rfl rfl (by decide) rfl

theorem evictFirstIdle_cases (l : List (String × UrlState)) :
    evictFirstIdle l = l
      ∨ ∃ pre x suf, l = pre ++ x :: suf ∧ x.2.count = 0 ∧ x.2.nextWaiter = none
          ∧ (∀ y ∈ pre, ¬ (y.2.count = 0 ∧ y.2.nextWaiter = none))
          ∧ evictFirstIdle l = pre ++ suf := by
  induction l with
  | nil => exact .inl rfl
  | cons a rest ih =>
    obtain ⟨k, s⟩ := a
    by_cases hs : s.count = 0 ∧ s.nextWaiter = none
    · refine .inr ⟨[], (k, s), rest, rfl, hs.1, hs.2, by simp, ?_⟩
      simp [evictFirstIdle, hs]
    · rcases ih with h | ⟨pre, x, suf, hl, hx1, hx2, hpre, he⟩
      · left
        simp [evictFirstIdle, hs, h]
      · right
        refine ⟨(k, s) :: pre, x, suf, by rw [hl]; rfl, hx1, hx2, ?_, ?_⟩
        · intro y hy
          rcases List.mem_cons.mp hy with rfl | hy'
          · exact hs
          · exact hpre y hy'
        · simp [evictFirstIdle, hs, he]

/-- C9: creating a state for a new key either leaves every existing entry
in place or removes exactly one entry, and a removed entry is idle (zero
active count and no pending waiter); an entry with active or waiting work
always survives; and when no idle entry exists nothing is evicted and the
appended fresh entry makes the table exceed the bound. -/
theorem c9_eviction_only_idle (maxUrlStates : Int) (url : String)
    (table : List (String × UrlState)) (hnew : lookupA url table = none) :
    (getOrCreateUrlState maxUrlStates url table = table ++ [(url, freshUrlState)]
      ∨ ∃ pre x suf, table = pre ++ x :: suf ∧ x.2.count = 0 ∧ x.2.nextWaiter = none
          ∧ getOrCreateUrlState maxUrlStates url table = (pre ++ suf) ++ [(url, freshUrlState)])
    ∧ (∀ y ∈ table, ¬ (y.2.count = 0 ∧ y.2.nextWaiter = none) →
        y ∈ getOrCreateUrlState maxUrlStates url table)
    ∧ ((∀ y ∈ table, ¬ (y.2.count = 0 ∧ y.2.nextWaiter = none)) →
        getOrCreateUrlState maxUrlStates url table = table ++ [(url, freshUrlState)]) := by
  have hget : getOrCreateUrlState maxUrlStates url table
      = (if 0 < maxUrlStates ∧ maxUrlStates ≤ (table.length : Int)
          then evictFirstIdle table else table) ++ [(url, freshUrlState)] := by
    simp [getOrCreateUrlState, hnew]
  by_cases hcond : 0 < maxUrlStates ∧ maxUrlStates ≤ (table.length : Int)
  · rw [hget, if_pos hcond]
    rcases evictFirstIdle_cases table with h | ⟨pre, x, suf, hl, hx1, hx2, hpre, he⟩
    · rw [h]
      refine ⟨.inl rfl, ?_, fun _ => rfl⟩
      intro y hy _
      exact List.mem_append_left _ hy
    · rw [he]
      refine ⟨.inr ⟨pre, x, suf, hl, hx1, hx2, rfl⟩, ?_, ?_⟩
      · intro y hy hyn
        apply List.mem_append_left
        rw [hl] at hy
        rcases List.mem_append.mp hy with hy' | hy'
        · exact List.mem_append_left _ hy'
        · rcases List.mem_cons.mp hy' with rfl | hy''
          · exact absurd ⟨hx1, hx2⟩ hyn
          · exact List.mem_append_right _ hy''
      · intro hall
        have hx : x ∈ table := by
          rw [hl]
          exact List.mem_append_right _ (List.mem_cons_self _ _)
        exact absurd ⟨hx1, hx2⟩ (hall x hx)
  · rw [hget, if_neg hcond]
    refine ⟨.inl rfl, ?_, fun _ => rfl⟩
    intro y hy _
    exact List.mem_append_left _ hy

/-- A two-entry table: key a has one active extraction, key b is idle. -/
def tableW : List (String × UrlState) := [("a", ⟨1, none, 0, []⟩), ("b", freshUrlState)]

/-- Witness for C9: creating key c in the full two-entry table. -/
theorem c9_eviction_only_idle_witness :
    lookupA "c" tableW = none
      ∧ ((getOrCreateUrlState 2 "c" tableW = tableW ++ [("c", freshUrlState)]
          ∨ ∃ pre x suf, tableW = pre ++ x :: suf ∧ x.2.count = 0 ∧ x.2.nextWaiter = none
              ∧ getOrCreateUrlState 2 "c" tableW = (pre ++ suf) ++ [("c", freshUrlState)])
        ∧ (∀ y ∈ tableW, ¬ (y.2.count = 0 ∧ y.2.nextWaiter = none) →
            y ∈ getOrCreateUrlState 2 "c" tableW)
        ∧ ((∀ y ∈ tableW, ¬ (y.2.count = 0 ∧ y.2.nextWaiter = none)) →
            getOrCreateUrlState 2 "c" tableW = tableW ++ [("c", freshUrlState)])) :=
  ⟨rfl, c9_eviction_only_idle 2 "c" tableW rfl⟩

end ServeRange
